import Mathlib

open scoped List

/-!
Verification model of the neu-scholar-backend retrieval / ingestion /
generation core.  Every definition is a shallow embedding of a function of
the JavaScript source; external collaborators (the MongoDB store, the
embedding pipeline, the completion providers) are passed in as explicit
parameters, and machine floats are modelled by the rationals.
-/

/-- A MongoDB document of the `conference` or `journal` collection:
a creation-ordered `_id`, string-valued domain fields, the two candidate
stored-embedding array fields (`vector`, `embedding`), and the
query-time similarity `score` attached by the retrieval code
(absent on stored documents). -/
structure Doc where
  id : Nat
  fields : List (String × String)
  vector : Option (List ℚ) := none
  embedding : Option (List ℚ) := none
  score : Option ℚ := none
deriving DecidableEq

/-- Field access `doc[f]` on the string-valued fields (first binding wins,
`none` models a JS `undefined` field). -/
def Doc.get (d : Doc) (f : String) : Option String :=
  (d.fields.find? (fun kv => kv.1 == f)).map (fun kv => kv.2)

/-- `String.toLowerCase()` (ASCII, as used on the ASCII field data). -/
def strLower (s : String) : String := ⟨s.toList.map Char.toLower⟩

/-- `hay.includes(needle)`: substring containment test. -/
def strIncludes (hay needle : String) : Bool :=
  decide (needle.toList <:+: hay.toList)

/-- JS whitespace for `String.prototype.trim`. -/
def isWs (c : Char) : Bool := c = ' ' || c = '\t' || c = '\n' || c = '\r'

/-- `q.trim()`. -/
def jsTrim (s : String) : String :=
  ⟨((s.toList.dropWhile isWs).reverse.dropWhile isWs).reverse⟩

/-- JS `Array.prototype.sort` with comparator `(a, b) => b.score - a.score`
is (per ECMAScript 2019) a stable sort putting larger scores first: `a`
may stay before `b` exactly when `b.score - a.score <= 0`.  A missing
score reads as `undefined`; the retrieval code only sorts lists on which
it has just attached a score, so `getD 0` is only a total default. -/
def sortByScoreDesc (l : List Doc) : List Doc :=
  l.mergeSort (fun a b => decide (b.score.getD 0 ≤ a.score.getD 0))

/-- Mongo `.sort({ _id: -1 })`: stable sort by creation id descending. -/
def sortByIdDesc (l : List Doc) : List Doc :=
  l.mergeSort (fun a b => decide (b.id ≤ a.id))

/-! ### A model of `new RegExp(q, "i")` on the fragment actually reasoned about

`textSearch` (search.js) builds a regex from the raw user query without
escaping.  We model the fragment generated by queries made of
non-metacharacter literals and the `+` quantifier (a `+` in the query is
a quantifier on the preceding character, exactly as in JS); compilation
returns `none` where the `RegExp` constructor throws a SyntaxError
(a `+` with nothing to repeat, e.g. a pattern starting with `+` or
`a++`).  Other metacharacters are outside the modelled fragment, and
every semantic theorem below restricts its query to metacharacter-free
patterns.  The `i` flag is modelled by lowering both pattern and
subject. -/

/-- The metacharacters of JS regular expressions — exactly the set the
source itself escapes in `buildSearchFilter`
(`/[.*+?^${}()|[\]\\]/g`). -/
def regexMeta : List Char :=
  ['.', '*', '+', '?', '^', '$', '{', '}', '(', ')', '|', '[', ']', '\\']

inductive RAtom where
  | lit (c : Char)
  | plus (c : Char)
deriving DecidableEq

/-- Compile a pattern string: a character followed by `+` becomes a
one-or-more atom, every other character a literal; `none` models the
SyntaxError the `RegExp` constructor throws when a `+` quantifier has
nothing to repeat. -/
def compilePat? : List Char → Option (List RAtom)
  | [] => some []
  | '+' :: _ => none
  | c :: '+' :: rest => (compilePat? rest).map (fun ps => .plus c :: ps)
  | c :: rest => (compilePat? rest).map (fun ps => .lit c :: ps)

/-- Match a compiled pattern against a prefix of the subject
(recursion is structural on the subject). -/
def matchHere : List RAtom → List Char → Bool
  | [], _ => true
  | _ :: _, [] => false
  | .lit c :: ps, x :: xs => x == c && matchHere ps xs
  | .plus c :: ps, x :: xs =>
      x == c && (matchHere ps xs || matchHere (.plus c :: ps) xs)

/-- `regex.test(s)`: match at some start position. -/
def regexTest (pat : List RAtom) : List Char → Bool
  | [] => matchHere pat []
  | s@(_ :: rest) => matchHere pat s || regexTest pat rest

/-- `new RegExp(q, "i").test(v)` on the modelled pattern fragment:
`none` when the `RegExp` constructor throws. -/
def jsRegexITest (q v : String) : Option Bool :=
  (compilePat? (strLower q).toList).map
    (fun pat => regexTest pat (strLower v).toList)

namespace SearchJs

/-! ### src/search.js : the tiered retrieval engine -/

/-- The `$or` field list of the text fallback (search.js line 90). -/
def orFields : List String :=
  ["title", "name", "categories", "areas", "publisher", "issn",
   "search_keywords", "topics", "acronym", "location", "country"]

/-- The regex filter of `textSearch`, for an already-compiled pattern:
some searched field matches. -/
def docMatchesPat (pat : List RAtom) (d : Doc) : Bool :=
  orFields.any (fun f =>
    match d.get f with
    | some v => regexTest pat (strLower v).toList
    | none => false)

/-- `textSearch(db, collection, q, limit)` (search.js lines 88-97):
`new RegExp(q, "i")` is built first — `none` models the SyntaxError the
constructor throws on an invalid pattern, which propagates out of
`textSearch` — then `find(filter).limit(limit)` returns the matching
documents unchanged, in collection order, truncated to `limit`. -/
def textSearch (store : List Doc) (q : String) (limit : Nat) :
    Option (List Doc) :=
  (compilePat? (strLower q).toList).map
    (fun pat => (store.filter (docMatchesPat pat)).take limit)

/-- `const n = Math.max(1, Number(limit) || 5)` (search.js line 128):
`0` (and any non-number) is falsy and falls back to the default 5,
then the lower clamp to 1 is applied.  There is no upper clamp. -/
def vsLimit (limit : Int) : Int :=
  max 1 (if limit = 0 then 5 else limit)

/-- `getPagination` of the CRUD layer (app.js):
`Math.min(Math.max(limit, 0), 500)` — the only place a 500 cap exists. -/
def getPaginationLimit (limit : Int) : Int :=
  min (max limit 0) 500

/-- The candidate stored-vector field names probed by `pickVectorField`. -/
def candidateVectorFields : List String := ["vector", "embedding"]

/-- Read one of the two candidate array fields of a document. -/
def Doc.arrayField (d : Doc) (f : String) : Option (List ℚ) :=
  if f = "vector" then d.vector
  else if f = "embedding" then d.embedding
  else none

/-- `pickVectorField`: probe the candidates for one that occurs as an
array in some document, defaulting to `"vector"`.  (The per-collection
memo cache is a pure optimisation and is modelled stateless.) -/
def pickVectorField (store : List Doc) : String :=
  match candidateVectorFields.find?
      (fun f => store.any (fun d => (Doc.arrayField d f).isSome)) with
  | some f => f
  | none => "vector"

/-- `[...new Set(cands)]`: keep the first occurrence of each name. -/
def jsSetDedup : List String → List String
  | [] => []
  | x :: xs => x :: jsSetDedup (xs.filter (fun y => y ≠ x))
termination_by l => l.length
decreasing_by
  simp only [List.length_cons]
  exact Nat.lt_succ_of_le (xs.length_filter_le _)

/-- `candidateIndexNames(collection)`: the env-configured name first,
then the conventional defaults, deduplicated. -/
def candidateIndexNames (collection envName : String) : List String :=
  jsSetDedup ((if envName ≠ "" then [envName] else []) ++
    [collection ++ "_vector_index", "vector_index"])

/-- The external collaborators of `vectorSearch`: `embed` is
`getQueryVector` (returns `none` when the embedder throws or produces an
empty array), `ann` is the Atlas `$vectorSearch` stage (arguments: index
name, path, query vector, numCandidates, limit; `none` models a thrown
error such as a missing index), and `envIndex` the environment-configured
index name. -/
structure VecCtx where
  embed : String → Option (List ℚ)
  ann : String → String → List ℚ → Nat → Nat → Option (List (Doc × ℚ))
  envIndex : String

/-- The inclusion projection of `tryVectorOnce` (search.js lines 101-108):
`_id`, the similarity score from `$meta`, and the listed domain fields.
The stored `vector`/`embedding` arrays are not in the projection and are
therefore stripped. -/
def projFields : List String :=
  ["title", "name", "acronym", "location", "issn", "publisher", "country",
   "categories", "areas", "rank", "sjr", "h_index", "deadline",
   "start_date", "url", "topics"]

def projectDoc (d : Doc) (s : ℚ) : Doc :=
  { id := d.id,
    fields := d.fields.filter (fun kv => projFields.contains kv.1),
    vector := none,
    embedding := none,
    score := some s }

/-- `tryVectorOnce`: run `$vectorSearch` with
`numCandidates = max(100, limit * 5)` and apply the projection. -/
def tryVectorOnce (ctx : VecCtx) (indexName path : String) (qv : List ℚ)
    (limit : Nat) : Option (List Doc) :=
  (ctx.ann indexName path qv (max 100 (limit * 5)) limit).map
    (fun rs => rs.map (fun p => projectDoc p.1 p.2))

/-- The index loop of `vectorSearch` (lines 143-150): first candidate
index that returns a non-empty result wins; thrown errors and empty
results both move on to the next candidate. -/
def tryIndexes (ctx : VecCtx) (path : String) (qv : List ℚ) (limit : Nat) :
    List String → Option (List Doc)
  | [] => none
  | idx :: rest =>
    match tryVectorOnce ctx idx path qv limit with
    | some rs =>
        if rs.length ≠ 0 then some rs else tryIndexes ctx path qv limit rest
    | none => tryIndexes ctx path qv limit rest

/-- Outcome of one `vectorSearch` call, with a trace bit recording
whether the embedding provider was invoked. -/
structure SearchOut where
  results : List Doc
  embedCalled : Bool
deriving DecidableEq

/-- `vectorSearch(collection, q, limit)` (search.js lines 126-155):
`none` models the call rejecting (the `textSearch` regex construction
throwing outside any try/catch). -/
def vectorSearchT (ctx : VecCtx) (collection : String) (store : List Doc)
    (q : String) (limit : Int) : Option SearchOut :=
  let n := (vsLimit limit).toNat
  if jsTrim q = "" then
    some { results := (sortByIdDesc store).take n, embedCalled := false }
  else
    match ctx.embed q with
    | some qv =>
      let path := pickVectorField store
      let idxs := candidateIndexNames collection ctx.envIndex
      match tryIndexes ctx path qv n idxs with
      | some rs => some { results := rs, embedCalled := true }
      | none =>
        (textSearch store q n).map
          (fun rs => { results := rs, embedCalled := true })
    | none =>
      (textSearch store q n).map
        (fun rs => { results := rs, embedCalled := true })

/-- The result list of `vectorSearch` (`none` = the call rejects). -/
def vectorSearch (ctx : VecCtx) (collection : String) (store : List Doc)
    (q : String) (limit : Int) : Option (List Doc) :=
  (vectorSearchT ctx collection store q limit).map SearchOut.results

end SearchJs

namespace MemSearch

/-!
### src/unnamed/part_004 (second document): the in-memory fallback engine

`safeRank` ranks the whole fetched collection by cosine similarity between
the query vector and each stored vector; when embedding the question
throws, the keyword `fallbackRank` is used.  `cosine` in the source is
`dot(a,b) / (sqrt(na) * sqrt(nb))` over IEEE doubles; its numeric values
are external to the ranking structure, so the similarity function is a
parameter `cos` here (the ranking theorems hold for every `cos`, in
particular the cosine of the source).
-/

/-- One step of `safeRank`: attach
`score := it.vector ? cosine(qVec, it.vector) : 0` (a present but empty
vector field is truthy in JS and still goes through `cos`). -/
def attachScore (cos : List ℚ → List ℚ → ℚ) (qVec : List ℚ) (it : Doc) :
    Doc :=
  { it with
    score := some (match it.vector with
      | some v => cos qVec v
      | none => 0) }

/-- One step of `fallbackRank`: attach
`score := text.includes(question.toLowerCase()) ? 1 : 0` where
`text = (fieldExtractor(it) || "").toLowerCase()`. -/
def fallbackScore (question : String) (extract : Doc → String) (it : Doc) :
    Doc :=
  { it with
    score := some
      (if strIncludes (strLower (extract it)) (strLower question)
       then 1 else 0) }

/-- `fallbackRank(items, question, fieldExtractor)`
(part_004 lines 205-213): score 1 for a substring match, 0 otherwise,
then the stable JS sort by score descending. -/
def fallbackRank (items : List Doc) (question : String)
    (extract : Doc → String) : List Doc :=
  sortByScoreDesc (items.map (fallbackScore question extract))

/-- `safeRank(items, question, fieldExtractor)` (part_004 lines 216-229):
rank by cosine against the query vector obtained from `embedText`; if
`embedText` throws, fall back to `fallbackRank`.  The embedding outcome
is the explicit parameter `embedRes`. -/
def safeRank (cos : List ℚ → List ℚ → ℚ)
    (embedRes : Except Unit (List ℚ)) (items : List Doc)
    (question : String) (extract : Doc → String) : List Doc :=
  match embedRes with
  | .ok qVec => sortByScoreDesc (items.map (attachScore cos qVec))
  | .error _ => fallbackRank items question extract

/-- The conference field extractor
``it => `${it.name} ${it.location} ${it.topics}` `` — a missing field
renders as the string `"undefined"` in a JS template literal. -/
def confExtract (it : Doc) : String :=
  (it.get "name").getD "undefined" ++ " " ++
  (it.get "location").getD "undefined" ++ " " ++
  (it.get "topics").getD "undefined"

/-- The journal field extractor ``it => `${it.title} ${it.areas} ${it.categories}` ``. -/
def journalExtract (it : Doc) : String :=
  (it.get "title").getD "undefined" ++ " " ++
  (it.get "areas").getD "undefined" ++ " " ++
  (it.get "categories").getD "undefined"

/-- `conferenceVectorSearch(question, topk)` (part_004 lines 250-255):
fetch the whole collection, `safeRank`, `slice(0, topk)`. -/
def conferenceVectorSearch (cos : List ℚ → List ℚ → ℚ)
    (embedRes : Except Unit (List ℚ)) (items : List Doc)
    (question : String) (topk : Nat) : List Doc :=
  (safeRank cos embedRes items question confExtract).take topk

/-- `journalVectorSearch(question, topk)` (part_004 lines 257-262). -/
def journalVectorSearch (cos : List ℚ → List ℚ → ℚ)
    (embedRes : Except Unit (List ℚ)) (items : List Doc)
    (question : String) (topk : Nat) : List Doc :=
  (safeRank cos embedRes items question journalExtract).take topk

end MemSearch

/-!
### The embedding batch wrappers (src/import.js lines 35-50, part_003 lines 29-33)

The transformer pipeline is the external embedding backend.  One call on
a list of texts returns a single batched Tensor — a Tensor, not a JS
array — whose row `i` is the embedding of the i-th input text (the
per-text behaviour of the opaque model is the parameter `E`), whose
`.data` is the flat concatenation of the rows, and whose integer
indexing `emb[i]` yields row `i`.  The two `importCollection` variants
wrap this call very differently; `chunksTake` models their
`for (i = 0; i < n; i += BATCH)` slicing loop.
-/

/-- The Tensor returned by one pipeline call. -/
structure EmbTensor where
  rows : List (List ℚ)

/-- `Array.from(t.data)`: the flat data of the tensor. -/
def EmbTensor.data (t : EmbTensor) : List ℚ := t.rows.flatten

/-- `Array.from(emb[i])`: extraction of row `i` (the loops only index
within range). -/
def EmbTensor.row (t : EmbTensor) (i : Nat) : List ℚ := t.rows.getD i []

/-- One pipeline call on a batch of texts. -/
def pipelineRun (E : String → List ℚ) (texts : List String) : EmbTensor :=
  ⟨texts.map E⟩

/-- `embed(text)` (part_004 lines 20-24): one single-text pipeline call,
`Array.from(output.data)`. -/
def embed (E : String → List ℚ) (t : String) : List ℚ :=
  (pipelineRun E [t]).data

/-- Worker of `chunksTake`, structurally recursive on a fuel that is
always at least the list length (one chunk consumes at least one
element, so the fuel never runs out). -/
def chunksTakeGo (b : Nat) : Nat → List String → List (List String)
  | _, [] => []
  | 0, l => [l]
  | fuel + 1, x :: xs => (x :: xs.take b) :: chunksTakeGo b fuel (xs.drop b)

/-- `l.slice(i, i + (b+1))` chunking: splits a list into consecutive
chunks of size `b + 1` (the import loops use batch sizes 25 and 32). -/
def chunksTake (b : Nat) (l : List String) : List (List String) :=
  chunksTakeGo b l.length l

namespace ImportV1

/-!
### src/unnamed/part_003: importCollection with the dedupe pre-pass
-/

/-- `embedBatch(texts)` (part_003 lines 29-33):
`texts.map((_, i) => Array.from(emb[i]))` — one row of the batched
Tensor per input text, in input order. -/
def embedBatch (E : String → List ℚ) (texts : List String) :
    List (List ℚ) :=
  let emb := pipelineRun E texts
  (List.range texts.length).map (fun i => emb.row i)

/-- The embedding input string of a record: the listed fields, empty
ones skipped, joined by single spaces (array-valued fields arrive
pre-joined as strings in this model). -/
def buildContent (fields : List String) (item : Doc) : String :=
  String.intercalate " "
    (((fields.map (fun f => (item.get f).getD ""))).filter (fun s => s ≠ ""))

/-- The dedupe key of a record: its `_key` field
(`undefined` reads as `""` for set membership in this model). -/
def keyOf (r : Doc) : String := (r.get "_key").getD ""

/-- `find({vector: {$exists: true}}, {projection: {_key: 1}})`: the keys
of the documents that already carry a stored vector. -/
def existingKeys (store : List Doc) : List String :=
  (store.filter (fun d => d.vector.isSome)).filterMap (fun d => d.get "_key")

/-- The document produced by
`updateOne({_key}, {$set: {...item, vector}})` on a matched document
`old`: every field of `item` overwrites the corresponding field of
`old`, the vector is replaced, `_id` is kept.  (Lookup-equivalent model
of the JS object update.) -/
def mergeSet (old item : Doc) (vec : List ℚ) : Doc :=
  { id := old.id,
    fields := item.fields ++
      old.fields.filter
        (fun kv => !(item.fields.any (fun kv2 => kv2.1 == kv.1))),
    vector := some vec,
    embedding := old.embedding,
    score := old.score }

/-- `updateOne({_key: k}, {$set: {...item, vector: vec}}, {upsert: true})`:
update the first document whose `_key` is `k`, inserting
`{...item, vector: vec}` when none matches. -/
def upsertByKey : List Doc → String → Doc → List ℚ → List Doc
  | [], _, item, vec => [{ item with vector := some vec }]
  | d :: ds, k, item, vec =>
    if d.get "_key" = some k then mergeSet d item vec :: ds
    else d :: upsertByKey ds k item vec

/-- `importCollection(db, name, records, fields)` (part_003 lines 80-158):
one query for the keys that already carry a vector, exclusion of those
records, batched embedding (`BATCH_SIZE = 25`), then keyed upserts.
The bounded-concurrency upserts are modelled in record order; each
upsert touches only its own key. -/
def importCollection (E : String → List ℚ) (store : List Doc)
    (records : List Doc) (fields : List String) : List Doc :=
  if records.isEmpty then store
  else
    let ex := existingKeys store
    let newRecords := records.filter (fun r => !(ex.contains (keyOf r)))
    if newRecords.isEmpty then store
    else
      let contents := newRecords.map (buildContent fields)
      let vectors := (chunksTake 24 contents).flatMap (embedBatch E)
      (newRecords.zip vectors).foldl
        (fun st rv => upsertByKey st (keyOf rv.1) rv.1 rv.2) store

/-- `findOne({_key: k})`: the stored document under a dedupe key. -/
def findByKey (store : List Doc) (k : String) : Option Doc :=
  store.find? (fun d => d.get "_key" == some k)

end ImportV1

namespace ImportJs

/-!
### src/import.js: importCollection without any dedupe pre-pass

This variant embeds every record of the run and upserts
`{$set: {...item, vector}}` keyed on `fields[0]`, overwriting any
already stored vector.
-/

/-- `flattenEmbedding(result)` (import.js lines 35-42) applied to the
pipeline output: the output is a Tensor, so the `result.data` branch
applies and yields `Array.from(result.data)`. -/
def flattenEmbedding (t : EmbTensor) : List ℚ := t.data

/-- `embedBatch(texts)` (import.js lines 45-50): the pipeline returns a
batched Tensor, which is not a JS array, so
`arr = Array.isArray(outputs) ? outputs : [outputs]` wraps it into a
singleton and `arr.map(flattenEmbedding)` returns ONE flattened vector
for the whole batch — the concatenation of all rows. -/
def embedBatch (E : String → List ℚ) (texts : List String) :
    List (List ℚ) :=
  [flattenEmbedding (pipelineRun E texts)]

/-- `updateOne({[f]: v}, {$set: {...item, vector: vec}}, {upsert: true})`
keyed on field `f` with value `v`. -/
def upsertByField : List Doc → String → Option String → Doc → List ℚ →
    List Doc
  | [], _, _, item, vec => [{ item with vector := some vec }]
  | d :: ds, f, v, item, vec =>
    if d.get f = v then ImportV1.mergeSet d item vec :: ds
    else d :: upsertByField ds f v item vec

/-- `importCollection(db, name, records, fields)` (import.js lines 53-92):
no query for existing keys, `BATCH_SIZE = 32`, upsert keyed on
`fields[0]`. -/
def importCollection (E : String → List ℚ) (store : List Doc)
    (records : List Doc) (fields : List String) : List Doc :=
  if records.isEmpty then store
  else
    let keyField := fields.headD ""
    let contents := records.map (ImportV1.buildContent fields)
    let vectors := (chunksTake 31 contents).flatMap (embedBatch E)
    (records.zip vectors).foldl
      (fun st rv => upsertByField st keyField (rv.1.get keyField) rv.1 rv.2)
      store

end ImportJs

namespace Agent

/-!
### src/app.js (second document) lines 208-238: the provider fallback loop

`tryProviders = [(provider || DEFAULT).toLowerCase(), "openai", "local"]`;
unknown names are skipped, each known provider is invoked once in order,
the loop breaks on the first settled call, errors are recorded in
`lastError`; afterwards `if (!answer) throw lastError || Error(...)` and
on success the response carries `provider: usedProvider`.
-/

/-- Outcome of the `for (const p of tryProviders)` loop: a settled
success (with the provider that produced it and the last error recorded
before it) or exhaustion. -/
inductive TryResult (E : Type) where
  | success (provider : String) (answer : String) (lastError : Option E)
  | exhausted (lastError : Option E)
deriving DecidableEq

/-- The provider loop.  `llmMap` maps a provider name to its callable
(`none` for names absent from `llmMap`, which the loop skips); the
second component of the result is the list of providers actually
invoked, in order. -/
def tryLoop (llmMap : String → Option (String → Except E String))
    (prompt : String) (lastErr : Option E) :
    List String → TryResult E × List String
  | [] => (.exhausted lastErr, [])
  | p :: rest =>
    match llmMap p with
    | none => tryLoop llmMap prompt lastErr rest
    | some f =>
      match f prompt with
      | .ok a => (.success p a lastErr, [p])
      | .error e =>
        let r := tryLoop llmMap prompt (some e) rest
        (r.1, p :: r.2)

/-- The generation result: `Except.error` carries
`lastError || new Error("All providers failed")` (`none` = the generic
error), `Except.ok` carries the answer and `usedProvider`.  Note the
source guard `if (!answer) throw ...`: an empty-string answer is falsy
and is treated as a failure. -/
def generate (llmMap : String → Option (String → Except E String))
    (order : List String) (prompt : String) :
    Except (Option E) (String × String) :=
  match (tryLoop llmMap prompt none order).1 with
  | .success p a lastErr => if a = "" then .error lastErr else .ok (a, p)
  | .exhausted lastErr => .error lastErr

/-- The providers actually invoked by one `generate` call, in order. -/
def invoked (llmMap : String → Option (String → Except E String))
    (order : List String) (prompt : String) : List String :=
  (tryLoop llmMap prompt none order).2

/-- The `lastError` variable of the loop after processing `order`,
starting from `acc`: the error of the last known failing provider. -/
def lastErrorAfter (llmMap : String → Option (String → Except E String))
    (prompt : String) (order : List String) (acc : Option E) : Option E :=
  order.foldl (fun acc p =>
    match llmMap p with
    | none => acc
    | some g =>
      match g prompt with
      | .error e => some e
      | .ok _ => acc) acc

end Agent

/-- The comparator of a descending stable sort on the key `k`
(the common shape of the three sorts of the source). -/
def keyDescLe {α β : Type} [LinearOrder β] (k : α → β) (a b : α) : Bool :=
  decide (k b ≤ k a)

/-- The sort key of the two score sorts. -/
def scoreKey (d : Doc) : ℚ := d.score.getD 0

/-- The per-record substring-match predicate of the specification
(claim C8): some searched field of the record contains the query as a
substring, case-insensitively. -/
def docSubstrMatches (q : String) (d : Doc) : Bool :=
  SearchJs.orFields.any (fun f =>
    match d.get f with
    | some v => strIncludes (strLower v) (strLower q)
    | none => false)

/-!
### Concrete fixtures used by counterexamples and witnesses
-/

/-- A retrieval context whose embedder always fails and whose vector
store always throws: retrieval is forced onto the fallback tiers. -/
def probeCtx : SearchJs.VecCtx :=
  { embed := fun _ => none, ann := fun _ _ _ _ _ => none, envIndex := "" }

/-- A stored conference document that carries a stored vector. -/
def probeDoc : Doc :=
  { id := 0, fields := [("name", "AI conf")], vector := some [1] }

def probeStore : List Doc := [probeDoc]

/-- A retrieval context whose embedder succeeds and whose vector store
returns one scored hit. -/
def annCtx : SearchJs.VecCtx :=
  { embed := fun _ => some [1],
    ann := fun _ _ _ _ _ => some [(probeDoc, 1)],
    envIndex := "" }

/-- A stored document whose `name` contains the substring `a+b`. -/
def plusDoc : Doc := { id := 0, fields := [("name", "xa+by")] }

/-- Two distinct documents with equal attached scores (a tie). -/
def tieA : Doc := { id := 0, fields := [("t", "a")], score := some 1 }

def tieB : Doc := { id := 1, fields := [("t", "b")], score := some 1 }

/-- An already-vectorized stored record with dedupe key `A` (both under
the `_key` convention of part_003 and the `title` convention of
import.js). -/
def v1doc : Doc :=
  { id := 0, fields := [("_key", "A"), ("title", "A")], vector := some [1] }

def v1store : List Doc := [v1doc]

/-- A re-ingested record with the same dedupe key `A`. -/
def v1recs : List Doc :=
  [{ id := 1, fields := [("_key", "A"), ("title", "A")] }]

/-- An embedding backend that returns `[2]` for every text. -/
def embedTwo : String → List ℚ := fun _ => [2]

/-- An embedding backend mapping the text `a` to `[1]` and every other
text to `[2]`. -/
def pairE : String → List ℚ := fun t => if t = "a" then [1] else [2]

/-- A provider map with a single provider `a` that succeeds with the
empty answer. -/
def emptyAnswerMap : String → Option (String → Except String String) :=
  fun n => if n = "a" then some (fun _ => Except.ok "") else none

/-- The successful provider of `failThenOkMap`. -/
def okProvider : String → Except String String := fun _ => Except.ok "ans"

/-- A provider map where `a` fails and `b` succeeds. -/
def failThenOkMap : String → Option (String → Except String String) :=
  fun n =>
    if n = "a" then some (fun _ => Except.error "boom")
    else if n = "b" then some okProvider
    else none

/-!
### Lemmas about the stable JS sort on a descending key

All three sorts of the source (`b.score - a.score` twice, `{_id: -1}`
once) are stable sorts on a key in descending order; we prove the shared
facts once, for an arbitrary key into a linear order.
-/

section KeySort

variable {α : Type} {β : Type} [LinearOrder β] (k : α → β)

theorem keyDescLe_trans :
    ∀ (a b c : α), keyDescLe k a b → keyDescLe k b c → keyDescLe k a c := by
  intro a b c hab hbc
  simp only [keyDescLe, decide_eq_true_eq] at *
  exact le_trans hbc hab

theorem keyDescLe_total : ∀ (a b : α), keyDescLe k a b || keyDescLe k b a := by
  intro a b
  simp only [keyDescLe, Bool.or_eq_true, decide_eq_true_eq]
  exact le_total _ _

theorem keySort_pairwise (l : List α) :
    (l.mergeSort (keyDescLe k)).Pairwise (fun a b => k b ≤ k a) := by
  have h := List.sorted_mergeSort (keyDescLe_trans k) (keyDescLe_total k) l
  exact h.imp (fun hab => by simpa [keyDescLe] using hab)

theorem keySort_perm (l : List α) : l.mergeSort (keyDescLe k) ~ l :=
  List.mergeSort_perm l _

theorem keySort_stable_pair {a b : α} {l : List α} (h : [a, b] <+ l)
    (hk : k b ≤ k a) : [a, b] <+ l.mergeSort (keyDescLe k) :=
  List.pair_sublist_mergeSort (keyDescLe_trans k) (keyDescLe_total k)
    (by simpa [keyDescLe] using hk) h

/-- On a list whose keys take only the two values `x > y`, the stable
descending sort is exactly: the `x`-keyed elements in input order,
followed by the `y`-keyed elements in input order. -/
theorem keySort_binary {x y : β} (hxy : y < x) :
    ∀ (l : List α), (∀ a ∈ l, k a = x ∨ k a = y) →
      l.mergeSort (keyDescLe k) =
        l.filter (fun a => decide (k a = x)) ++
          l.filter (fun a => !decide (k a = x))
  | [], _ => by simp
  | a :: l, hl => by
    have hmem : ∀ b ∈ a :: l, k b = x ∨ k b = y := hl
    obtain ⟨l₁, l₂, h₁, h₂, h₃⟩ :=
      List.mergeSort_cons (keyDescLe_trans k) (keyDescLe_total k) a l
    have ih := keySort_binary hxy l (fun b hb => hl b (List.mem_cons_of_mem a hb))
    have hmem₁ : ∀ b ∈ l₁, b ∈ a :: l := by
      intro b hb
      have : b ∈ (a :: l).mergeSort (keyDescLe k) := by
        rw [h₁]; exact List.mem_append_left _ hb
      exact List.mem_mergeSort.mp this
    rcases hl a (List.mem_cons_self a l) with hka | hka
    · -- the new head has the high key: nothing can precede it
      have hnil : l₁ = [] := by
        rcases l₁ with _ | ⟨b, l₁⟩
        · rfl
        · exfalso
          have hb : b ∈ a :: l := hmem₁ b (List.mem_cons_self b l₁)
          have hle : keyDescLe k a b := by
            simp only [keyDescLe, decide_eq_true_eq, hka]
            rcases hmem b hb with h | h
            · simp [h]
            · simp [h]; exact le_of_lt hxy
          have := h₃ b (List.mem_cons_self b l₁)
          simp [hle] at this
      subst hnil
      simp only [List.nil_append] at h₁ h₂
      rw [h₁, h₂.symm.trans ih]
      simp [List.filter_cons, hka]
    · -- the new head has the low key: it goes after every high element
      have hkay : k a ≠ x := by
        rw [hka]; exact ne_of_lt hxy
      -- every element of l₁ has the high key
      have hl₁ : ∀ b ∈ l₁, k b = x := by
        intro b hb
        have h₃b := h₃ b hb
        simp only [keyDescLe, Bool.not_eq_true', decide_eq_false_iff_not,
          hka] at h₃b
        rcases hmem b (hmem₁ b hb) with h | h
        · exact h
        · exact absurd (h ▸ le_refl y) h₃b
      -- every element of l₂ has the low key
      have hsorted : (l₁ ++ a :: l₂).Pairwise (fun a b => k b ≤ k a) := by
        rw [← h₁]; exact keySort_pairwise k _
      have hl₂ : ∀ c ∈ l₂, ¬ (k c = x) := by
        intro c hc
        have htail : (a :: l₂).Pairwise (fun a b => k b ≤ k a) :=
          hsorted.sublist (List.sublist_append_right l₁ _)
        have hcy : k c ≤ k a := List.rel_of_pairwise_cons htail hc
        intro hcx
        rw [hcx, hka] at hcy
        exact absurd hcy (not_le_of_lt hxy)
      -- identify l₁ and l₂ with the two filters of l
      have hsplit : l₁ ++ l₂ =
          l.filter (fun a => decide (k a = x)) ++
            l.filter (fun a => !decide (k a = x)) := h₂.symm.trans ih
      have hfl₁ : (l₁ ++ l₂).filter (fun a => decide (k a = x)) = l₁ := by
        have e₁ : l₁.filter (fun a => decide (k a = x)) = l₁ :=
          List.filter_eq_self.mpr (fun b hb => by simp [hl₁ b hb])
        have e₂ : l₂.filter (fun a => decide (k a = x)) = [] :=
          List.filter_eq_nil_iff.mpr (fun c hc => by simp [hl₂ c hc])
        rw [List.filter_append, e₁, e₂, List.append_nil]
      have hfr : (l.filter (fun a => decide (k a = x)) ++
          l.filter (fun a => !decide (k a = x))).filter
            (fun a => decide (k a = x)) =
          l.filter (fun a => decide (k a = x)) := by
        have e₁ : (l.filter (fun a => decide (k a = x))).filter
            (fun a => decide (k a = x)) =
            l.filter (fun a => decide (k a = x)) :=
          List.filter_eq_self.mpr (fun b hb => (List.mem_filter.mp hb).2)
        have e₂ : (l.filter (fun a => !decide (k a = x))).filter
            (fun a => decide (k a = x)) = [] :=
          List.filter_eq_nil_iff.mpr (fun c hc => by
            have hc2 := (List.mem_filter.mp hc).2
            simp only [Bool.not_eq_true', decide_eq_false_iff_not] at hc2
            simp [hc2])
        rw [List.filter_append, e₁, e₂, List.append_nil]
      have hl₁eq : l₁ = l.filter (fun a => decide (k a = x)) := by
        rw [← hfl₁, hsplit, hfr]
      have hl₂eq : l₂ = l.filter (fun a => !decide (k a = x)) := by
        have := hsplit
        rw [hl₁eq] at this
        exact List.append_cancel_left this
      rw [h₁, hl₁eq, hl₂eq]
      simp [List.filter_cons, hkay]
termination_by l => l.length

end KeySort

theorem sortByScoreDesc_eq (l : List Doc) :
    sortByScoreDesc l = l.mergeSort (keyDescLe scoreKey) := rfl

theorem sortByIdDesc_eq (l : List Doc) :
    sortByIdDesc l = l.mergeSort (keyDescLe Doc.id) := rfl

/-!
### Lemmas about the modelled regex on literal patterns

On a query without any regex metacharacter, compilation succeeds with a
pure literal pattern and `new RegExp(q, "i").test(v)` is exactly
case-insensitive substring containment.
-/

theorem compilePat?_literal (l : List Char) (h : ∀ c ∈ l, c ∉ regexMeta) :
    compilePat? l = some (l.map RAtom.lit) := by
  induction l using compilePat?.induct with
  | case1 => rfl
  | case2 rest =>
    exact absurd (h '+' (List.mem_cons_self '+' rest)) (by decide)
  | case3 c rest =>
    exact absurd (h '+' (List.mem_cons_of_mem c
      (List.mem_cons_self '+' rest))) (by decide)
  | case4 c rest hplus hne ih =>
    rw [compilePat?]
    · rw [ih (fun x hx => h x (List.mem_cons_of_mem c hx)),
        Option.map_some']
      rfl
    · exact hplus
    · exact hne

theorem matchHere_literal :
    ∀ (l cs : List Char), matchHere (l.map RAtom.lit) cs = l.isPrefixOf cs
  | [], cs => by simp [matchHere]
  | c :: l, [] => by simp [matchHere, List.isPrefixOf]
  | c :: l, x :: xs => by
    rw [Bool.eq_iff_iff]
    simp only [List.map_cons, matchHere, List.isPrefixOf,
      Bool.and_eq_true, beq_iff_eq, matchHere_literal l xs]
    exact and_congr_left (fun _ => eq_comm)

theorem regexTest_literal :
    ∀ (l cs : List Char), regexTest (l.map RAtom.lit) cs = true ↔ l <:+: cs
  | l, [] => by
    simp only [regexTest, matchHere_literal, List.isPrefixOf_iff_prefix]
    rw [List.prefix_nil, List.infix_nil]
  | l, c :: rest => by
    simp only [regexTest, Bool.or_eq_true, matchHere_literal,
      List.isPrefixOf_iff_prefix, regexTest_literal l rest]
    exact List.infix_cons_iff.symm

theorem jsRegexITest_literal (q v : String)
    (h : ∀ c ∈ (strLower q).toList, c ∉ regexMeta) :
    jsRegexITest q v = some (strIncludes (strLower v) (strLower q)) := by
  unfold jsRegexITest
  rw [compilePat?_literal _ h, Option.map_some']
  congr 1
  rw [Bool.eq_iff_iff, regexTest_literal]
  unfold strIncludes
  simp

/-!
### The embedding wrappers and the chunked batching loop
-/

theorem embed_eq (E : String → List ℚ) (t : String) : embed E t = E t := by
  simp [embed, pipelineRun, EmbTensor.data, List.flatten]

theorem range_map_getD {α : Type} (d : α) :
    ∀ (l : List α), (List.range l.length).map (fun i => l.getD i d) = l
  | [] => rfl
  | x :: xs => by
    rw [List.length_cons, List.range_succ_eq_map, List.map_cons,
      List.map_map]
    have hcomp : ((fun i => (x :: xs).getD i d) ∘ Nat.succ) =
        (fun i => xs.getD i d) := by
      funext i
      rfl
    rw [hcomp, range_map_getD d xs]
    rfl

/-- part_003's `embedBatch` extracts exactly one Tensor row per text. -/
theorem importV1_embedBatch_map (E : String → List ℚ)
    (texts : List String) :
    ImportV1.embedBatch E texts = texts.map E := by
  unfold ImportV1.embedBatch pipelineRun EmbTensor.row
  rw [← List.length_map texts E]
  exact range_map_getD [] (texts.map E)

theorem chunksTakeGo_flatMap (E : String → List ℚ)
    (B : List String → List (List ℚ)) (hB : ∀ l, B l = l.map E) (b : Nat) :
    ∀ (fuel : Nat) (texts : List String), texts.length ≤ fuel →
      (chunksTakeGo b fuel texts).flatMap B = texts.map E
  | _, [], _ => by cases ‹Nat› <;> rfl
  | 0, _ :: _, h => by simp at h
  | fuel + 1, x :: xs, h => by
    have h2 : xs.length ≤ fuel := by simpa using h
    have hlen : (xs.drop b).length ≤ fuel := by
      simp only [List.length_drop]; omega
    have ih := chunksTakeGo_flatMap E B hB b fuel (xs.drop b) hlen
    simp only [chunksTakeGo, List.flatMap_cons, ih, hB, List.map_cons]
    rw [List.cons_append, ← List.map_append, List.take_append_drop]

theorem chunksTake_flatMap (E : String → List ℚ)
    (B : List String → List (List ℚ)) (hB : ∀ l, B l = l.map E) (b : Nat)
    (texts : List String) :
    (chunksTake b texts).flatMap B = texts.map E :=
  chunksTakeGo_flatMap E B hB b texts.length texts (le_refl _)

/-!
### Lemmas about keyed upserts
-/

theorem find?_filter_of_imp {α : Type} (p q : α → Bool) :
    ∀ (l : List α), (∀ a ∈ l, p a = true → q a = true) →
      (l.filter q).find? p = l.find? p
  | [], _ => rfl
  | a :: l, h => by
    have ih := find?_filter_of_imp p q l
      (fun b hb => h b (List.mem_cons_of_mem a hb))
    by_cases hq : q a = true
    · rw [List.filter_cons_of_pos hq]
      by_cases hp : p a = true
      · rw [List.find?_cons_of_pos _ hp, List.find?_cons_of_pos _ hp]
      · rw [List.find?_cons_of_neg _ hp, List.find?_cons_of_neg _ hp, ih]
    · have hp : ¬ p a = true := fun hpa =>
        hq (h a (List.mem_cons_self a l) hpa)
      rw [List.filter_cons_of_neg (by simpa using hq),
        List.find?_cons_of_neg _ hp, ih]

/-!
### Lemmas about the provider fallback loop
-/

namespace Agent

variable {E : Type}

theorem tryLoop_exhausted (llmMap : String → Option (String → Except E String))
    (prompt : String) :
    ∀ (order : List String) (acc : Option E),
      (∀ q ∈ order, ∀ g, llmMap q = some g →
        ∃ er, g prompt = .error er) →
      tryLoop llmMap prompt acc order =
        (.exhausted (lastErrorAfter llmMap prompt order acc),
          order.filter (fun q => (llmMap q).isSome))
  | [], acc, _ => rfl
  | q :: order, acc, hall => by
    have htail : ∀ r ∈ order, ∀ g, llmMap r = some g →
        ∃ er, g prompt = .error er :=
      fun r hr => hall r (List.mem_cons_of_mem q hr)
    cases hq : llmMap q with
    | none =>
      simp only [tryLoop, hq, lastErrorAfter, List.foldl_cons,
        List.filter_cons, Option.isSome_none, Bool.false_eq_true, if_false]
      exact tryLoop_exhausted llmMap prompt order acc htail
    | some g =>
      obtain ⟨er, her⟩ := hall q (List.mem_cons_self q order) g hq
      simp only [tryLoop, hq, her, lastErrorAfter, List.foldl_cons,
        List.filter_cons, Option.isSome_some, if_true]
      rw [tryLoop_exhausted llmMap prompt order (some er) htail]
      rfl

theorem tryLoop_first_success
    (llmMap : String → Option (String → Except E String))
    (prompt : String) (p : String) (f : String → Except E String)
    (a : String) (hp : llmMap p = some f) (ha : f prompt = .ok a) :
    ∀ (pre : List String) (post : List String) (acc : Option E),
      (∀ q ∈ pre, ∀ g, llmMap q = some g →
        ∃ er, g prompt = .error er) →
      tryLoop llmMap prompt acc (pre ++ p :: post) =
        (.success p a (lastErrorAfter llmMap prompt pre acc),
          pre.filter (fun q => (llmMap q).isSome) ++ [p])
  | [], post, acc, _ => by
    simp only [List.nil_append, tryLoop, hp, ha, lastErrorAfter,
      List.foldl_nil, List.filter_nil]
  | q :: pre, post, acc, hall => by
    have htail : ∀ r ∈ pre, ∀ g, llmMap r = some g →
        ∃ er, g prompt = .error er :=
      fun r hr => hall r (List.mem_cons_of_mem q hr)
    cases hq : llmMap q with
    | none =>
      rw [List.cons_append]
      simp only [tryLoop, hq]
      rw [tryLoop_first_success llmMap prompt p f a hp ha pre post acc htail]
      simp only [lastErrorAfter, List.foldl_cons, hq, List.filter_cons,
        Option.isSome_none, Bool.false_eq_true, if_false]
    | some g =>
      obtain ⟨er, her⟩ := hall q (List.mem_cons_self q pre) g hq
      rw [List.cons_append]
      simp only [tryLoop, hq, her]
      rw [tryLoop_first_success llmMap prompt p f a hp ha pre post
        (some er) htail]
      simp only [lastErrorAfter, List.foldl_cons, hq, her, List.filter_cons,
        Option.isSome_some, if_true, List.cons_append]

end Agent

/-- Field lookup on the `$set`-merged document: the updating record wins,
otherwise the old value remains. -/
theorem get_mergeSet (old item : Doc) (vec : List ℚ) (f : String) :
    (ImportV1.mergeSet old item vec).get f = (item.get f).or (old.get f) := by
  unfold ImportV1.mergeSet Doc.get
  simp only [List.find?_append]
  cases hfind : item.fields.find? (fun kv => kv.1 == f) with
  | some kv => simp
  | none =>
    rw [find?_filter_of_imp]
    · simp
    · intro kv hkv hp
      simp only [beq_iff_eq] at hp
      rw [List.find?_eq_none] at hfind
      simp only [Bool.not_eq_true', List.any_eq_false, beq_iff_eq]
      intro kv2 hkv2 hbeq
      exact hfind kv2 hkv2 (by simp [hbeq, hp])

/-- The vector field does not change field lookups. -/
theorem get_setVector (item : Doc) (vec : List ℚ) (f : String) :
    ({ item with vector := some vec } : Doc).get f = item.get f := rfl

/-- A keyed upsert leaves the stored document of every other key
untouched. -/
theorem findByKey_upsert_ne (k kk : String) (item : Doc) (vec : List ℚ)
    (hkk : kk ≠ k) (hitem : item.get "_key" ≠ some k) :
    ∀ (st : List Doc),
      ImportV1.findByKey (ImportV1.upsertByKey st kk item vec) k =
        ImportV1.findByKey st k
  | [] => by
    unfold ImportV1.upsertByKey ImportV1.findByKey
    rw [List.find?_cons_of_neg _ (by simpa using hitem)]
  | d :: ds => by
    have ih := findByKey_upsert_ne k kk item vec hkk hitem ds
    unfold ImportV1.upsertByKey
    by_cases hd : d.get "_key" = some kk
    · rw [if_pos hd]
      unfold ImportV1.findByKey
      have hmk : (ImportV1.mergeSet d item vec).get "_key" ≠ some k := by
        rw [get_mergeSet]
        cases hik : item.get "_key" with
        | some s =>
          show some s ≠ some k
          rw [← hik]
          exact hitem
        | none =>
          show d.get "_key" ≠ some k
          rw [hd]
          exact fun hc => hkk (Option.some.inj hc)
      rw [List.find?_cons_of_neg _ (by simpa using hmk),
        List.find?_cons_of_neg _ (by simpa [hd] using hkk)]
    · rw [if_neg hd]
      unfold ImportV1.findByKey
      by_cases hdk : d.get "_key" = some k
      · rw [List.find?_cons_of_pos _ (by simpa using hdk),
          List.find?_cons_of_pos _ (by simpa using hdk)]
      · rw [List.find?_cons_of_neg _ (by simpa using hdk),
          List.find?_cons_of_neg _ (by simpa using hdk)]
        exact ih

/-!
## Claim theorems
-/

/-- C4 counterexample: the claim says `topK <= 0` is clamped up to 1 and
values above a hard 500 ceiling are clamped down.  In `vectorSearch`,
`topK = 0` is falsy and yields the default 5 (not 1), and `topK = 501`
passes through unchanged (no ceiling at all). -/
theorem C4_counterexample :
    SearchJs.vsLimit 0 = 5 ∧ (5 : Int) ≠ 1 ∧
    SearchJs.vsLimit 501 = 501 ∧ ¬ SearchJs.vsLimit 501 ≤ 500 := by
  refine ⟨by decide, by decide, by decide, by decide⟩

/-- C4 (amended): in `vectorSearch` the effective limit is
`max(1, limit || 5)`: a negative `topK` is clamped up to 1, `topK = 0`
falls back to the default 5, and any `topK >= 1` is used unchanged — in
particular there is no upper ceiling on the retrieval limit.  The only
500 cap in the source is the CRUD pagination helper `getPagination`,
whose limit always lies in `[0, 500]`. -/
theorem C4_limit_clamp (l : Int) :
    1 ≤ SearchJs.vsLimit l ∧
    (l < 0 → SearchJs.vsLimit l = 1) ∧
    (l = 0 → SearchJs.vsLimit l = 5) ∧
    (1 ≤ l → SearchJs.vsLimit l = l) ∧
    0 ≤ SearchJs.getPaginationLimit l ∧
    SearchJs.getPaginationLimit l ≤ 500 := by
  rcases eq_or_ne l 0 with h | h
  · subst h
    decide
  · simp only [SearchJs.vsLimit, SearchJs.getPaginationLimit, if_neg h]
    omega

/-- C4 witness: the amended clamp evaluated at `-7`, `0` and `7`. -/
theorem C4_limit_clamp_witness :
    SearchJs.vsLimit (-7) = 1 ∧ SearchJs.vsLimit 0 = 5 ∧
    SearchJs.vsLimit 7 = 7 :=
  ⟨(C4_limit_clamp (-7)).2.1 (by decide),
   (C4_limit_clamp 0).2.2.1 rfl,
   (C4_limit_clamp 7).2.2.2.1 (by decide)⟩

/-- C5 counterexample: the transformers.js pipeline returns a batched
Tensor, which `Array.isArray` rejects, so import.js `embedBatch` wraps
it into a singleton and flattens the whole batch into ONE vector: on the
two texts `a`, `b` it returns a single concatenated vector instead of
one vector per input text. -/
theorem C5_counterexample :
    ImportJs.embedBatch pairE ["a", "b"] = [[1, 2]] ∧
    ["a", "b"].map (embed pairE) = [[1], [2]] ∧
    (ImportJs.embedBatch pairE ["a", "b"]).length = 1 := by
  refine ⟨rfl, rfl, rfl⟩

/-- C5 (amended): part_003's `embedBatch` extracts one Tensor row per
input text, so it returns one vector per text, the i-th equal to `embed`
of the i-th text, and the chunked batching loop (every chunk size,
covering `BATCH_SIZE` 25 and 32) equals per-item embedding; import.js's
`embedBatch`, by contrast, returns a single concatenated vector for the
whole batch and agrees with per-item embedding only on single-text
batches. -/
theorem C5_embedBatch_pointwise (E : String → List ℚ)
    (texts : List String) (b : Nat) (t : String) :
    ImportV1.embedBatch E texts = texts.map (embed E) ∧
    (ImportV1.embedBatch E texts).length = texts.length ∧
    (chunksTake b texts).flatMap (ImportV1.embedBatch E) =
      texts.map (embed E) ∧
    ImportJs.embedBatch E [t] = [embed E t] := by
  have hfun : embed E = E := funext (fun s => embed_eq E s)
  refine ⟨?_, ?_, ?_, rfl⟩
  · rw [hfun]
    exact importV1_embedBatch_map E texts
  · rw [importV1_embedBatch_map E texts, List.length_map]
  · rw [hfun]
    exact chunksTake_flatMap E (ImportV1.embedBatch E)
      (importV1_embedBatch_map E) b texts

/-- C3 counterexample: a provider that succeeds with the empty string is
treated as a total failure by the `if (!answer) throw` guard — `generate`
errors (with no underlying provider error) instead of reporting the
provider that produced the answer. -/
theorem C3_counterexample :
    emptyAnswerMap "a" = some (fun _ => Except.ok "") ∧
    Agent.generate emptyAnswerMap ["a"] "q" = Except.error none := by
  exact ⟨rfl, rfl⟩

/-- C3 (amended): the loop tries the providers of the order strictly
sequentially, skipping names absent from `llmMap`; the first settled
success stops the loop with no later provider invoked, and — provided
the produced answer is non-empty — `generate` returns it together with
the provider that produced it (an empty-string answer is falsy and
instead fails the whole call).  When every known provider fails,
`generate` fails carrying the error of the last failing provider
(`lastErrorAfter`; `none` is the generic all-failed error). -/
theorem C3_provider_loop {E : Type}
    (llmMap : String → Option (String → Except E String))
    (prompt : String) :
    (∀ (pre post : List String) (p : String)
        (f : String → Except E String) (a : String),
      (∀ q ∈ pre, ∀ g, llmMap q = some g →
        ∃ er, g prompt = Except.error er) →
      llmMap p = some f → f prompt = Except.ok a → a ≠ "" →
      Agent.generate llmMap (pre ++ p :: post) prompt =
          Except.ok (a, p) ∧
        Agent.invoked llmMap (pre ++ p :: post) prompt =
          pre.filter (fun q => (llmMap q).isSome) ++ [p]) ∧
    (∀ (order : List String),
      (∀ q ∈ order, ∀ g, llmMap q = some g →
        ∃ er, g prompt = Except.error er) →
      Agent.generate llmMap order prompt =
          Except.error (Agent.lastErrorAfter llmMap prompt order none) ∧
        Agent.invoked llmMap order prompt =
          order.filter (fun q => (llmMap q).isSome)) := by
  constructor
  · intro pre post p f a hpre hp ha hne
    have h := Agent.tryLoop_first_success llmMap prompt p f a hp ha
      pre post none hpre
    unfold Agent.generate Agent.invoked
    rw [h]
    simp [hne]
  · intro order hall
    have h := Agent.tryLoop_exhausted llmMap prompt order none hall
    unfold Agent.generate Agent.invoked
    rw [h]
    exact ⟨rfl, rfl⟩

/-- C3 witness: with provider `a` failing and `b` succeeding, `generate`
returns the answer of `b`, reports `usedProvider = b`, and invokes
exactly `a` then `b` — nothing after the success. -/
theorem C3_provider_loop_witness :
    Agent.generate failThenOkMap (["a"] ++ "b" :: []) "q" =
        Except.ok ("ans", "b") ∧
      Agent.invoked failThenOkMap (["a"] ++ "b" :: []) "q" =
        List.filter (fun q => (failThenOkMap q).isSome) ["a"] ++ ["b"] :=
  (C3_provider_loop failThenOkMap "q").1 ["a"] [] "b" okProvider "ans"
    (by
      intro q hq g hg
      rw [List.mem_singleton] at hq
      subst hq
      have hg2 : some (fun _ => Except.error "boom") = some g := by
        rw [← hg]
        rfl
      exact ⟨"boom", by rw [← Option.some.inj hg2]⟩)
    rfl rfl (by decide)

/-- C2 counterexample: `importCollection` of src/import.js performs no
dedupe query at all: re-ingesting the record with key `A`, whose stored
vector is `[1]`, re-embeds it and overwrites the stored vector with the
newly computed `[2]`. -/
theorem C2_counterexample :
    v1store.map Doc.vector = [some [1]] ∧
    (ImportJs.importCollection embedTwo v1store v1recs ["title"]).map
        Doc.vector = [some [2]] := by
  exact ⟨rfl, rfl⟩

/-- C2 (amended): the part_003 variant of `importCollection` does query
the store once for the keys already carrying a vector and excludes those
records, so for every store, run and already-vectorized key the stored
document under that key — its vector included — is unchanged by
re-ingestion.  The src/import.js variant performs no such query and
overwrites the stored vector of every re-ingested record. -/
theorem C2_dedupe_idempotent (E : String → List ℚ)
    (store records : List Doc) (fields : List String) (k : String)
    (d : Doc) (hd : d ∈ store) (hkey : d.get "_key" = some k)
    (hvec : d.vector.isSome = true) :
    ImportV1.findByKey (ImportV1.importCollection E store records fields) k =
      ImportV1.findByKey store k := by
  have hkmem : k ∈ ImportV1.existingKeys store := by
    unfold ImportV1.existingKeys
    exact List.mem_filterMap.mpr
      ⟨d, List.mem_filter.mpr ⟨hd, hvec⟩, hkey⟩
  unfold ImportV1.importCollection
  by_cases hrec : records.isEmpty
  · rw [if_pos hrec]
  · rw [if_neg hrec]
    by_cases hnew : (records.filter
        (fun r => !((ImportV1.existingKeys store).contains
          (ImportV1.keyOf r)))).isEmpty
    · rw [if_pos hnew]
    · rw [if_neg hnew]
      have hfold : ∀ (pairs : List (Doc × List ℚ)) (st : List Doc),
          (∀ rv ∈ pairs, ImportV1.keyOf rv.1 ≠ k ∧
            rv.1.get "_key" ≠ some k) →
          ImportV1.findByKey
            (pairs.foldl (fun st rv =>
              ImportV1.upsertByKey st (ImportV1.keyOf rv.1) rv.1 rv.2) st) k =
            ImportV1.findByKey st k := by
        intro pairs
        induction pairs with
        | nil => intro st _; rfl
        | cons rv pairs ih =>
          intro st hall
          rw [List.foldl_cons,
            ih _ (fun x hx => hall x (List.mem_cons_of_mem rv hx)),
            findByKey_upsert_ne k (ImportV1.keyOf rv.1) rv.1 rv.2
              (hall rv (List.mem_cons_self rv pairs)).1
              (hall rv (List.mem_cons_self rv pairs)).2 st]
      apply hfold
      intro rv hrv
      have hr1 := (List.of_mem_zip hrv).1
      have hr2 := List.mem_filter.mp hr1
      have hnotin : ImportV1.keyOf rv.1 ∉ ImportV1.existingKeys store := by
        have h2 := hr2.2
        simp only [List.contains, Bool.not_eq_true', List.elem_eq_mem,
          decide_eq_false_iff_not] at h2
        exact h2
      constructor
      · intro heq
        exact hnotin (heq ▸ hkmem)
      · intro heq
        apply hnotin
        have : ImportV1.keyOf rv.1 = k := by
          unfold ImportV1.keyOf
          rw [heq]
          rfl
        exact this ▸ hkmem

/-- C2 witness: re-ingesting the key `A`, already stored with a vector,
through the part_003 pipeline leaves its stored document unchanged. -/
theorem C2_dedupe_idempotent_witness :
    ImportV1.findByKey
        (ImportV1.importCollection embedTwo v1store v1recs ["title"]) "A" =
      ImportV1.findByKey v1store "A" :=
  C2_dedupe_idempotent embedTwo v1store v1recs ["title"] "A" v1doc
    (by decide) (by decide) (by decide)

/-- C7 counterexample: a retrieval through the keyword tier (embedding
failed) returns the stored document unchanged, its stored vector
included — the vector field is not stripped outside the vector tier. -/
theorem C7_counterexample :
    SearchJs.vectorSearch probeCtx "conference" probeStore "ai" 5 =
      some [probeDoc] ∧
    probeDoc.vector = some [1] := by
  refine ⟨by decide, rfl⟩

/-- C7 (amended): only the vector tier strips the stored embedding: the
`$project` stage of `tryVectorOnce` removes the `vector`/`embedding`
fields (and attaches the score) from every result it returns, whereas
the keyword tier and the empty-query recent-records path return stored
documents as they are in the store, stored vector included. -/
theorem C7_vector_stripped_only_in_vector_tier :
    (∀ (d : Doc) (s : ℚ),
      (SearchJs.projectDoc d s).vector = none ∧
      (SearchJs.projectDoc d s).embedding = none ∧
      (SearchJs.projectDoc d s).score = some s) ∧
    (∀ (ctx : SearchJs.VecCtx) (idx path : String) (qv : List ℚ) (n : Nat)
        (rs : List Doc),
      SearchJs.tryVectorOnce ctx idx path qv n = some rs →
      ∀ d ∈ rs, d.vector = none) ∧
    (∀ (store : List Doc) (q : String) (n : Nat) (rs : List Doc),
      SearchJs.textSearch store q n = some rs →
      ∀ d ∈ rs, d ∈ store) ∧
    (∀ (store : List Doc) (n : Nat),
      ∀ d ∈ (sortByIdDesc store).take n, d ∈ store) := by
  refine ⟨fun d s => ⟨rfl, rfl, rfl⟩, ?_, ?_, ?_⟩
  · intro ctx idx path qv n rs hrs d hd
    unfold SearchJs.tryVectorOnce at hrs
    cases hann : ctx.ann idx path qv (max 100 (n * 5)) n with
    | none => rw [hann] at hrs; exact absurd hrs (by simp)
    | some raw =>
      rw [hann] at hrs
      have hres : raw.map (fun p => SearchJs.projectDoc p.1 p.2) = rs :=
        Option.some.inj hrs
      rw [← hres] at hd
      obtain ⟨p, hp, hpd⟩ := List.mem_map.mp hd
      rw [← hpd]
      rfl
  · intro store q n rs hrs d hd
    unfold SearchJs.textSearch at hrs
    cases hpat : compilePat? (strLower q).toList with
    | none => rw [hpat] at hrs; exact absurd hrs (by simp)
    | some pat =>
      rw [hpat] at hrs
      have hres : (store.filter (SearchJs.docMatchesPat pat)).take n = rs :=
        Option.some.inj hrs
      rw [← hres] at hd
      exact (List.filter_sublist _).subset
        ((List.take_sublist _ _).subset hd)
  · intro store n d hd
    exact (keySort_perm Doc.id store).subset
      ((List.take_sublist _ _).subset hd)

/-- C7 witness: the vector-tier projection applied to a stored document
with a vector yields a result whose vector field is stripped. -/
theorem C7_vector_stripped_witness :
    (SearchJs.projectDoc probeDoc 1).vector = none :=
  C7_vector_stripped_only_in_vector_tier.2.1 annCtx "idx" "vector" [1] 5
    [SearchJs.projectDoc probeDoc 1] rfl (SearchJs.projectDoc probeDoc 1)
    (List.mem_singleton.mpr rfl)

/-- C9 (confirmed): an empty or whitespace-only query short-circuits:
the embedding provider is not invoked, and the result is the `n` most
recent records — sorted by creation id descending, all drawn from the
store, of length `min n |store|`, and every returned record is at least
as recent as every stored record left out. -/
theorem C9_empty_query_recent (ctx : SearchJs.VecCtx) (collection : String)
    (store : List Doc) (q : String) (limit : Int) (hq : jsTrim q = "") :
    SearchJs.vectorSearchT ctx collection store q limit =
      some { results :=
               (sortByIdDesc store).take (SearchJs.vsLimit limit).toNat,
             embedCalled := false } ∧
    ((sortByIdDesc store).take (SearchJs.vsLimit limit).toNat).Pairwise
      (fun a b => b.id ≤ a.id) ∧
    (∀ d ∈ (sortByIdDesc store).take (SearchJs.vsLimit limit).toNat,
      d ∈ store) ∧
    ((sortByIdDesc store).take (SearchJs.vsLimit limit).toNat).length =
      min (SearchJs.vsLimit limit).toNat store.length ∧
    (∀ d ∈ (sortByIdDesc store).take (SearchJs.vsLimit limit).toNat,
      ∀ e ∈ store,
        e ∉ (sortByIdDesc store).take (SearchJs.vsLimit limit).toNat →
        e.id ≤ d.id) := by
  refine ⟨by simp [SearchJs.vectorSearchT, hq], ?_, ?_, ?_, ?_⟩
  · exact List.Pairwise.sublist (List.take_sublist _ _)
      (keySort_pairwise Doc.id store)
  · intro d hd
    exact (keySort_perm Doc.id store).subset
      ((List.take_sublist _ _).subset hd)
  · rw [List.length_take, sortByIdDesc_eq, List.length_mergeSort]
  · intro d hd e he hne
    have heS : e ∈ sortByIdDesc store :=
      ((keySort_perm Doc.id store).symm.subset) he
    have hsplit := List.take_append_drop (SearchJs.vsLimit limit).toNat
      (sortByIdDesc store)
    have hPair : ((sortByIdDesc store).take (SearchJs.vsLimit limit).toNat ++
        (sortByIdDesc store).drop (SearchJs.vsLimit limit).toNat).Pairwise
          (fun a b => b.id ≤ a.id) := by
      rw [hsplit]
      exact keySort_pairwise Doc.id store
    have hdrop : e ∈ (sortByIdDesc store).drop
        (SearchJs.vsLimit limit).toNat := by
      rcases List.mem_append.mp (by rw [hsplit]; exact heS) with h | h
      · exact absurd h hne
      · exact h
    exact (List.pairwise_append.mp hPair).2.2 d hd e hdrop

/-- C9 witness: the whitespace query on a one-document store: the call
succeeds with the recent-records result, no embedding call, and the
result length is `min n 1`. -/
theorem C9_empty_query_recent_witness :
    SearchJs.vectorSearchT probeCtx "conference" probeStore "  " 7 =
      some { results :=
               (sortByIdDesc probeStore).take (SearchJs.vsLimit 7).toNat,
             embedCalled := false } ∧
    ((sortByIdDesc probeStore).take (SearchJs.vsLimit 7).toNat).length
        = min (SearchJs.vsLimit 7).toNat probeStore.length := by
  have h := C9_empty_query_recent probeCtx "conference" probeStore "  " 7
    (by decide)
  exact ⟨h.1, h.2.2.2.1⟩

/-- C10 (confirmed): `safeRank` never filters — its output has exactly
the length of the fetched collection — so `conferenceVectorSearch` and
`journalVectorSearch` return exactly `min topk |collection|` results,
and with enough capacity the sliced result is the entire ranked
collection (zero-scoring records included). -/
theorem C10_rank_keeps_all (cos : List ℚ → List ℚ → ℚ)
    (embedRes : Except Unit (List ℚ)) (items : List Doc)
    (question : String) (topk : Nat) :
    (MemSearch.safeRank cos embedRes items question
        MemSearch.confExtract).length = items.length ∧
    (MemSearch.conferenceVectorSearch cos embedRes items question
        topk).length = min topk items.length ∧
    (MemSearch.journalVectorSearch cos embedRes items question
        topk).length = min topk items.length ∧
    (items.length ≤ topk →
      MemSearch.conferenceVectorSearch cos embedRes items question topk =
        MemSearch.safeRank cos embedRes items question
          MemSearch.confExtract) := by
  have hlen : ∀ (ex : Doc → String),
      (MemSearch.safeRank cos embedRes items question ex).length =
        items.length := by
    intro ex
    cases embedRes with
    | ok qv =>
      simp only [MemSearch.safeRank, sortByScoreDesc, List.length_mergeSort,
        List.length_map]
    | error e =>
      simp only [MemSearch.safeRank, MemSearch.fallbackRank, sortByScoreDesc,
        List.length_mergeSort, List.length_map]
  refine ⟨hlen _, ?_, ?_, ?_⟩
  · unfold MemSearch.conferenceVectorSearch
    rw [List.length_take, hlen _]
  · unfold MemSearch.journalVectorSearch
    rw [List.length_take, hlen _]
  · intro hle
    unfold MemSearch.conferenceVectorSearch
    exact List.take_of_length_le (by rw [hlen _]; exact hle)

/-- C10 witness: with capacity 3 and one record, the slice is the whole
ranking. -/
theorem C10_rank_keeps_all_witness :
    MemSearch.conferenceVectorSearch (fun _ _ => 0) (Except.ok [])
        [tieA] "q" 3 =
      MemSearch.safeRank (fun _ _ => 0) (Except.ok []) [tieA] "q"
        MemSearch.confExtract :=
  (C10_rank_keeps_all (fun _ _ => 0) (Except.ok []) [tieA] "q" 3).2.2.2
    (by decide)

/-- C1 counterexample: on the keyword fallback tier of search.js
(`textSearch`, reached here because embedding fails) the returned
records carry no attached similarity score at all, so the invariant
"sorted by the attached score, ties stable" does not hold on that tier:
there is no attached score to sort by. -/
theorem C1_counterexample :
    SearchJs.vectorSearch probeCtx "conference" probeStore "ai" 5 =
      some [probeDoc] ∧
    probeDoc.score = none := by
  refine ⟨by decide, rfl⟩

/-- C1 (amended): the two scored rankings of the in-memory engine
(`safeRank`, in both its cosine branch and its keyword fallback branch)
are sorted by the attached score in descending order, tied pairs keep
their input order (JS sort stability), and the output is a permutation
of the scored input; the keyword tier of search.js (`textSearch`), by
contrast, attaches no score and performs no reordering: whenever its
regex construction succeeds, it returns a sublist of the store
(matching records unchanged, in store order). -/
theorem C1_rank_sorted_stable :
    (∀ (cos : List ℚ → List ℚ → ℚ) (embedRes : Except Unit (List ℚ))
        (items : List Doc) (question : String) (extract : Doc → String),
      (MemSearch.safeRank cos embedRes items question extract).Pairwise
        (fun a b => b.score.getD 0 ≤ a.score.getD 0)) ∧
    (∀ (l : List Doc) (a b : Doc), [a, b] <+ l →
      a.score.getD 0 = b.score.getD 0 → [a, b] <+ sortByScoreDesc l) ∧
    (∀ (cos : List ℚ → List ℚ → ℚ) (qVec : List ℚ) (items : List Doc)
        (question : String) (extract : Doc → String),
      MemSearch.safeRank cos (Except.ok qVec) items question extract ~
        items.map (MemSearch.attachScore cos qVec)) ∧
    (∀ (items : List Doc) (question : String) (extract : Doc → String),
      MemSearch.fallbackRank items question extract ~
        items.map (MemSearch.fallbackScore question extract)) ∧
    (∀ (store : List Doc) (q : String) (n : Nat) (rs : List Doc),
      SearchJs.textSearch store q n = some rs → rs <+ store) := by
  refine ⟨?_, ?_, ?_, ?_, ?_⟩
  · intro cos embedRes items question extract
    cases embedRes with
    | ok qv => exact keySort_pairwise scoreKey _
    | error e => exact keySort_pairwise scoreKey _
  · intro l a b hab heq
    exact keySort_stable_pair scoreKey hab (le_of_eq heq.symm)
  · intro cos qv items question extract
    exact keySort_perm scoreKey _
  · intro items question extract
    exact keySort_perm scoreKey _
  · intro store q n rs hrs
    unfold SearchJs.textSearch at hrs
    cases hpat : compilePat? (strLower q).toList with
    | none => rw [hpat] at hrs; exact absurd hrs (by simp)
    | some pat =>
      rw [hpat] at hrs
      rw [← Option.some.inj hrs]
      exact (List.take_sublist _ _).trans (List.filter_sublist _)

/-- C1 witness: a tied pair keeps its input order through the stable
score sort. -/
theorem C1_rank_sorted_stable_witness :
    [tieA, tieB] <+ sortByScoreDesc [tieA, tieB] :=
  C1_rank_sorted_stable.2.1 [tieA, tieB] tieA tieB (List.Sublist.refl _)
    (by decide)

/-- C8 counterexample: the query `a+b` is compiled into an unescaped
regex, so the stored document whose `name` field contains the exact
substring `a+b` is not matched and is excluded from the keyword-tier
results even though capacity (limit 5) allows it. -/
theorem C8_counterexample :
    strIncludes (strLower ((plusDoc.get "name").getD ""))
        (strLower "a+b") = true ∧
    SearchJs.textSearch [plusDoc] "a+b" 5 = some [] := by
  refine ⟨by decide, by decide⟩

/-- C8 (amended): for queries without any regex metacharacter the
compiled regex is exactly case-insensitive substring containment, and a
stored record one of whose searched fields contains the query substring
is included in the keyword-tier results whenever fewer than `limit`
results are returned; in the part_004 keyword fallback (true substring
matching), a matching record is ranked within the first `topk` whenever
at most `topk` records match.  (Queries containing metacharacters get
regex semantics — or a thrown SyntaxError — instead, as in the
counterexample.) -/
theorem C8_substring_inclusion :
    (∀ (q v : String), (∀ c ∈ (strLower q).toList, c ∉ regexMeta) →
      jsRegexITest q v = some (strIncludes (strLower v) (strLower q))) ∧
    (∀ (store : List Doc) (q : String) (n : Nat) (d : Doc)
        (rs : List Doc),
      (∀ c ∈ (strLower q).toList, c ∉ regexMeta) → d ∈ store →
      docSubstrMatches q d = true →
      SearchJs.textSearch store q n = some rs →
      rs.length < n → d ∈ rs) ∧
    (∀ (items : List Doc) (question : String) (extract : Doc → String)
        (topk : Nat) (d : Doc), d ∈ items →
      strIncludes (strLower (extract d)) (strLower question) = true →
      (items.filter (fun it =>
        strIncludes (strLower (extract it)) (strLower question))).length
          ≤ topk →
      MemSearch.fallbackScore question extract d ∈
        (MemSearch.fallbackRank items question extract).take topk) := by
  refine ⟨jsRegexITest_literal, ?_, ?_⟩
  · intro store q n d rs hmeta hd hmatch hrs hlen
    unfold SearchJs.textSearch at hrs
    rw [compilePat?_literal _ hmeta] at hrs
    have hres : (store.filter (SearchJs.docMatchesPat
        ((strLower q).toList.map RAtom.lit))).take n = rs :=
      Option.some.inj hrs
    have hdm : SearchJs.docMatchesPat ((strLower q).toList.map RAtom.lit) d
        = docSubstrMatches q d := by
      unfold SearchJs.docMatchesPat docSubstrMatches
      congr 1
      funext f
      cases d.get f with
      | some v =>
        rw [Bool.eq_iff_iff, regexTest_literal]
        unfold strIncludes
        simp
      | none => rfl
    have hdf : d ∈ store.filter (SearchJs.docMatchesPat
        ((strLower q).toList.map RAtom.lit)) :=
      List.mem_filter.mpr ⟨hd, by rw [hdm]; exact hmatch⟩
    have hfl : (store.filter (SearchJs.docMatchesPat
        ((strLower q).toList.map RAtom.lit))).length < n := by
      rw [← hres, List.length_take] at hlen
      omega
    rw [← hres, List.take_of_length_le (le_of_lt hfl)]
    exact hdf
  · intro items question extract topk d hd hmatch hcount
    have hbin : ∀ a ∈ items.map (MemSearch.fallbackScore question extract),
        scoreKey a = 1 ∨ scoreKey a = 0 := by
      intro a ha
      obtain ⟨it, hit, rfl⟩ := List.mem_map.mp ha
      unfold MemSearch.fallbackScore scoreKey
      by_cases hsi : strIncludes (strLower (extract it))
          (strLower question) = true
      · left; simp [hsi]
      · right; simp [hsi]
    have hchar := keySort_binary scoreKey (show (0 : ℚ) < 1 by norm_num)
      (items.map (MemSearch.fallbackScore question extract)) hbin
    have hds : scoreKey (MemSearch.fallbackScore question extract d) = 1 := by
      unfold MemSearch.fallbackScore scoreKey
      simp [hmatch]
    have hmem1 : MemSearch.fallbackScore question extract d ∈
        (items.map (MemSearch.fallbackScore question extract)).filter
          (fun a => decide (scoreKey a = 1)) :=
      List.mem_filter.mpr ⟨List.mem_map_of_mem _ hd, by simp [hds]⟩
    have hcnt : ((items.map (MemSearch.fallbackScore question
        extract)).filter (fun a => decide (scoreKey a = 1))).length
          ≤ topk := by
      rw [List.filter_map, List.length_map]
      have hpq : List.filter
          ((fun a => decide (scoreKey a = 1)) ∘
            MemSearch.fallbackScore question extract) items =
          List.filter (fun it =>
            strIncludes (strLower (extract it)) (strLower question))
            items := by
        apply List.filter_congr
        intro it _
        cases hsi : strIncludes (strLower (extract it))
            (strLower question) with
        | true =>
          simp [Function.comp, MemSearch.fallbackScore, scoreKey, hsi]
        | false =>
          simp [Function.comp, MemSearch.fallbackScore, scoreKey, hsi]
      rw [hpq]
      exact hcount
    unfold MemSearch.fallbackRank
    rw [sortByScoreDesc_eq, hchar, List.take_append_eq_append_take,
      List.take_of_length_le hcnt]
    exact List.mem_append_left _ hmem1

/-- C8 witness: the literal query `ai` substring-matches the stored
document and the document is returned by the keyword tier. -/
theorem C8_substring_inclusion_witness :
    SearchJs.textSearch probeStore "ai" 5 = some [probeDoc] ∧
    probeDoc ∈ [probeDoc] :=
  ⟨by decide,
   C8_substring_inclusion.2.1 probeStore "ai" 5 probeDoc [probeDoc]
     (by decide) (by decide) (by decide) (by decide) (by decide)⟩
